import Mathlib

set_option maxRecDepth 8000

/-!
Verification development for the epss-client repository (shallow embedding).

The Python sources under `epss/` are embedded as executable Lean definitions:

* `epss/pattern_matching.py` : glob matching via the standard fnmatch module,
  embedded as `globMatch` (POSIX fnmatch semantics: the whole string must
  match; `*`, `?` and bracket classes are supported, an unterminated `[` is
  a literal character, as in fnmatch.translate).
* `epss/epss.py` : date handling (`parse_date`, `parse_date_range`,
  `iter_dates`, `get_min_date`), score filtering (`filter_scores`) and the
  client query/cache layer (`get_scores_by_date`,
  `iter_scores_grouped_by_date`, `get_scores_by_date_range`,
  `Client.download_scores_by_date`).

Modelling choices, stated once:

* Calendar dates appearing only as range endpoints are modelled as integer
  day numbers (`Int`); only ordering and day arithmetic matter there.
  `parse_date` / `isoformat`, which are about the textual format, use the
  structured `CalDate` model with the Gregorian month lengths that the
  Python `datetime.date` constructor enforces.
* Floating point scores are modelled as rationals; every comparison the
  code performs on them is exact, no rounding occurs.
* The filesystem cache is a map from day number to the size of the file at
  the canonical path for that day, plus a counter of network fetches.
* Python exceptions are modelled with `Except PyError`.
* The thread pool in `iter_scores_grouped_by_date` yields completed
  futures in a scheduler dependent order; we model the schedule that
  completes them in submission order.  The properties proved below
  (which pairs are yielded, and how many) are the same under every
  schedule.
-/

/-- Errors raised by the embedded code: `invalidDateFormat` for the
ValueError/TypeError raised by `parse_date`, `invalidRange` for the
ValueError raised by `parse_date_range`, `emptyConcat` for the ValueError
raised by `pd.concat` applied to an empty list of tables. -/
inductive PyError where
  | invalidDateFormat
  | invalidRange
  | emptyConcat
deriving DecidableEq

/-! ## Pattern matching (`epss/pattern_matching.py`, fnmatch semantics) -/

/-- Scan for the closing `]` of a bracket class: returns the characters
before it and the characters after it, or `none` when there is no `]`
(fnmatch then treats the opening `[` as a literal). -/
def scanClose : List Char → Option (List Char × List Char)
  | [] => none
  | c :: rest =>
    if c = ']' then some ([], rest)
    else (scanClose rest).map (fun p => (c :: p.1, p.2))

/-- Split the characters following a `[` into the class body and the rest
of the pattern, per fnmatch.translate: a leading `!` and a `]` directly
after it (or directly after the `[`) belong to the class body. -/
def splitBracket (ps : List Char) : Option (List Char × List Char) :=
  match ps with
  | '!' :: ']' :: rest => (scanClose rest).map (fun p => ('!' :: ']' :: p.1, p.2))
  | '!' :: rest => (scanClose rest).map (fun p => ('!' :: p.1, p.2))
  | ']' :: rest => (scanClose rest).map (fun p => (']' :: p.1, p.2))
  | rest => scanClose rest

/-- Membership of a character in a bracket class body, with `a-b` ranges
compared by code point; a trailing `-` is a literal. -/
def charInClass (c : Char) : List Char → Bool
  | a :: '-' :: b :: rest => (a ≤ c && c ≤ b) || charInClass c rest
  | a :: rest => (a == c) || charInClass c rest
  | [] => false

/-- A bracket class whose body starts with `!` is negated. -/
def bracketMatch (c : Char) (cls : List Char) : Bool :=
  match cls with
  | '!' :: rest => !(charInClass c rest)
  | rest => charInClass c rest

/-- The bracket class step of fnmatch at a `[` in the pattern: when the
class is terminated, whether the current character matches it, and the
pattern characters after the class; when unterminated, the `[` is a
literal (so the character must equal it) and the pattern continues with
the characters after the `[`. -/
def bracketHead (a : Char) (ps : List Char) : Bool × List Char :=
  match splitBracket ps with
  | some pr => (bracketMatch a pr.1, pr.2)
  | none => (a == '[', ps)

/-- Anchored glob matching of a pattern against a string (both as
character lists), structured on an explicit fuel argument so that the
function evaluates by kernel reduction; `globMatch` below supplies
sufficient fuel, and `globMatchF_eq_of_lt` shows any sufficient fuel
gives the same answer.  The semantics is that of `fnmatch.fnmatch` on
POSIX after case normalisation: `*` matches any sequence, `?` any single
character, `[...]` a bracket class, any other character itself; the
whole string must be consumed. -/
def globMatchF : Nat → List Char → List Char → Bool
  | 0, _, _ => false
  | _ + 1, [], s => s.isEmpty
  | fuel + 1, c :: ps, [] =>
    if c = '*' then globMatchF fuel ps [] else false
  | fuel + 1, c :: ps, a :: s2 =>
    if c = '*' then
      globMatchF fuel ps (a :: s2) || globMatchF fuel (c :: ps) s2
    else if c = '?' then globMatchF fuel ps s2
    else if c = '[' then
      (bracketHead a ps).1 && globMatchF fuel (bracketHead a ps).2 s2
    else (a == c) && globMatchF fuel ps s2

/-- Glob matching with sufficient fuel: every recursive step of the
matcher consumes at least one pattern or string character, so
`p.length + s.length + 1` steps always reach an answer. -/
def globMatch (p s : List Char) : Bool := globMatchF (p.length + s.length + 1) p s

/-- ASCII lowercasing of one character: the 26 basic latin capitals map
to their lower case forms, everything else is fixed (extensionally the
mapping `Char.toLower` performs, spelt out per letter). -/
def asciiLower (c : Char) : Char :=
  match c with
  | 'A' => 'a' | 'B' => 'b' | 'C' => 'c' | 'D' => 'd' | 'E' => 'e'
  | 'F' => 'f' | 'G' => 'g' | 'H' => 'h' | 'I' => 'i' | 'J' => 'j'
  | 'K' => 'k' | 'L' => 'l' | 'M' => 'm' | 'N' => 'n' | 'O' => 'o'
  | 'P' => 'p' | 'Q' => 'q' | 'R' => 'r' | 'S' => 's' | 'T' => 't'
  | 'U' => 'u' | 'V' => 'v' | 'W' => 'w' | 'X' => 'x' | 'Y' => 'y'
  | 'Z' => 'z' | d => d

/-- ASCII lowercasing of a string, the behaviour of `str.lower` on the
identifier alphabet the code handles. -/
def strLower (s : String) : String := ⟨s.data.map asciiLower⟩

/-- `string_matches_pattern(string, pattern, case_sensitive)`: lowercases
both operands unless case sensitive, then fnmatch. -/
def stringMatchesPattern (s p : String) (caseSensitive : Bool) : Bool :=
  let s1 := if caseSensitive then s else strLower s
  let p1 := if caseSensitive then p else strLower p
  globMatch p1.data s1.data

/-- `string_matches_any_pattern(string, patterns, case_sensitive)`:
lowercases the string and every pattern unless case sensitive, then tests
fnmatch against each pattern. -/
def stringMatchesAnyPattern (s : String) (ps : List String) (caseSensitive : Bool) : Bool :=
  let s1 := if caseSensitive then s else strLower s
  let ps1 := if caseSensitive then ps else ps.map strLower
  ps1.any (fun p => globMatch p.data s1.data)

/-! ## Calendar dates and `parse_date` (`epss/epss.py`, lines 316-330)

`datetime.date.fromisoformat` accepts exactly the canonical `YYYY-MM-DD`
form (the format the docstring of `parse_date` documents), and the
`datetime.date` constructor enforces year 1..9999, month 1..12 and day
1..days in month. -/

/-- A validated calendar date, the model of `datetime.date`. -/
structure CalDate where
  year : Nat
  month : Nat
  day : Nat
deriving DecidableEq

/-- Table of the ten decimal digit characters with their values. -/
def digitTable : List (Char × Nat) :=
  [('0', 0), ('1', 1), ('2', 2), ('3', 3), ('4', 4),
   ('5', 5), ('6', 6), ('7', 7), ('8', 8), ('9', 9)]

/-- Decimal digit value of a character, `none` for a non-digit. -/
def digitVal (c : Char) : Option Nat := digitTable.lookup c

/-- The character for a decimal digit value (code point 48 is the digit
zero; values above 9 never occur at call sites). -/
def natDigitChar (n : Nat) : Char := Char.ofNat (48 + n)

/-- Parse two digit characters as a two digit number. -/
def digit2 (a b : Char) : Option Nat :=
  match digitVal a, digitVal b with
  | some x, some y => some (10 * x + y)
  | _, _ => none

/-- Parse four digit characters as a four digit number. -/
def digit4 (a b c d : Char) : Option Nat :=
  match digit2 a b, digit2 c d with
  | some x, some y => some (100 * x + y)
  | _, _ => none

/-- Gregorian leap year rule used by `datetime`. -/
def isLeapYear (y : Nat) : Bool :=
  y % 4 = 0 && (y % 100 ≠ 0 || y % 400 = 0)

/-- Number of days in a month, as `datetime._days_in_month`. -/
def daysInMonth (y m : Nat) : Nat :=
  if m = 2 then (if isLeapYear y then 29 else 28)
  else if m = 4 || m = 6 || m = 9 || m = 11 then 30
  else 31

/-- The field bounds enforced by the `datetime.date` constructor. -/
def validDate (d : CalDate) : Bool :=
  1 ≤ d.year && d.year ≤ 9999 && 1 ≤ d.month && d.month ≤ 12 &&
    1 ≤ d.day && d.day ≤ daysInMonth d.year d.month

/-- `datetime.date.fromisoformat`: exactly ten characters shaped
`YYYY-MM-DD` with all eight positions decimal digits, then the
constructor validity check; `none` models the ValueError on anything
else. -/
def fromIsoformat (s : String) : Option CalDate :=
  match s.data with
  | [a, b, c, d, h1, e, f, h2, g, i] =>
    if h1 = '-' && h2 = '-' then
      match digit4 a b c d, digit2 e f, digit2 g i with
      | some y, some mo, some dy =>
        if validDate ⟨y, mo, dy⟩ then some ⟨y, mo, dy⟩ else none
      | _, _, _ => none
    else none
  | _ => none

/-- Zero padded two digit rendering, as the `%02d` used by
`date.isoformat` (days and months are below 100). -/
def pad2 (n : Nat) : List Char := [natDigitChar (n / 10 % 10), natDigitChar (n % 10)]

/-- Zero padded four digit rendering, as the `%04d` used by
`date.isoformat` (years are below 10000). -/
def pad4 (n : Nat) : List Char :=
  [natDigitChar (n / 1000 % 10), natDigitChar (n / 100 % 10),
   natDigitChar (n / 10 % 10), natDigitChar (n % 10)]

/-- `date.isoformat`: `YYYY-MM-DD` with zero padding. -/
def isoformat (d : CalDate) : String :=
  ⟨pad4 d.year ++ '-' :: (pad2 d.month ++ '-' :: pad2 d.day)⟩

/-- The runtime type of the `date` argument of `parse_date`: an ISO
string, a `datetime.date`, a `datetime.datetime` (whose `.date()` is the
carried calendar date; the time of day cannot influence the result), or
a value of any other type. -/
inductive PyDateInput where
  | str (s : String)
  | date (d : CalDate)
  | datetime (d : CalDate)
  | other

/-- `parse_date` (epss.py lines 316-330): strings go through
`fromisoformat` (ValueError on failure), datetimes are truncated to
their date, dates pass through, anything else raises TypeError. -/
def parseDate : PyDateInput → Except PyError CalDate
  | .str s =>
    match fromIsoformat s with
    | some d => .ok d
    | none => .error .invalidDateFormat
  | .date d => .ok d
  | .datetime d => .ok d
  | .other => .error .invalidDateFormat

/-! ## Date ranges on day numbers (`epss/epss.py`, lines 333-374) -/

/-- `parse_date_range(min_date, max_date)` (epss.py lines 346-356) on
day numbers: a missing bound defaults to the global minimum
(`get_min_date()`, the constant) or the resolved global maximum
(`get_max_date()`); raises ValueError when the resolved minimum exceeds
the resolved maximum. -/
def parseDateRange (gmin gmax : Int) (minD maxD : Option Int) : Except PyError (Int × Int) :=
  let m := minD.getD gmin
  let M := maxD.getD gmax
  if m > M then .error .invalidRange else .ok (m, M)

/-- `iter_dates(min_date, max_date)` (epss.py lines 333-343): defaults
the bounds, validates them through `parse_date_range`, then yields every
day of the inclusive range in ascending order (`pd.date_range` with
daily frequency). -/
def iterDates (gmin gmax : Int) (minD maxD : Option Int) : Except PyError (List Int) :=
  match parseDateRange gmin gmax minD maxD with
  | .error e => .error e
  | .ok r => .ok ((List.range ((r.2 - r.1).toNat + 1)).map (fun (i : Nat) => r.1 + (i : Int)))

/-- The probe loop of `get_min_date(check=True)` (epss.py lines 367-374):
starting at `d`, return the current date as soon as its download URL
does not answer 200, otherwise step one day back.  `avail` is the
provider availability predicate (HEAD answers 200); `fuel` bounds the
loop, `none` modelling the unterminated descent that the Python
`while True` would perform if every probed day were available. -/
def probeMinDate (avail : Int → Bool) : Nat → Int → Option Int
  | 0, _ => none
  | fuel + 1, d => if avail d = false then some d else probeMinDate avail fuel (d - 1)

/-- `get_min_date(check)` (epss.py lines 359-374): without `check` the
hardcoded constant, with `check` the descending probe starting at the
resolved maximum date. -/
def getMinDate (minConst : Int) (avail : Int → Bool) (maxDate : Int)
    (check : Bool) (fuel : Nat) : Option Int :=
  if check = false then some minConst else probeMinDate avail fuel maxDate

/-! ## Score records and filtering (`epss/epss.py`, lines 282-313) -/

/-- One row of a per-date score table: columns `cve`, `epss`,
`percentile`, `date`. -/
structure ScoreRecord where
  cve : String
  epss : ℚ
  percentile : ℚ
  date : Int
deriving DecidableEq

/-- The five optional filter parameters threaded through the client. -/
structure ScoreFilter where
  cveIds : Option (List String)
  minScore : Option ℚ
  maxScore : Option ℚ
  minPercentile : Option ℚ
  maxPercentile : Option ℚ
deriving DecidableEq

/-- The filter configuration with every parameter left at its `None`
default. -/
def noFilter : ScoreFilter := ⟨none, none, none, none, none⟩

/-- `filter_scores` (epss.py lines 282-313): the identifier filter runs
under Python truthiness (`if cve_ids:` skips both `None` and an empty
collection), the four numeric filters run whenever the parameter `is not
None`, each keeping the rows inside the corresponding bound. -/
def filterScores (p : ScoreFilter) (df : List ScoreRecord) : List ScoreRecord :=
  let df1 :=
    match p.cveIds with
    | some ids =>
      if ids.isEmpty then df
      else df.filter (fun r => stringMatchesAnyPattern r.cve ids false)
    | none => df
  let df2 :=
    match p.minScore with
    | some q => df1.filter (fun r => q ≤ r.epss)
    | none => df1
  let df3 :=
    match p.maxScore with
    | some q => df2.filter (fun r => r.epss ≤ q)
    | none => df2
  let df4 :=
    match p.minPercentile with
    | some q => df3.filter (fun r => q ≤ r.percentile)
    | none => df3
  match p.maxPercentile with
  | some q => df4.filter (fun r => r.percentile ≤ q)
  | none => df4

/-- The `any((cve_ids, min_score, max_score, min_percentile,
max_percentile))` gate of `Client.get_scores_by_date` (epss.py lines
156-164): Python truthiness, under which `None`, an empty collection and
the float `0.0` are all falsy. -/
def anyFilterSet (p : ScoreFilter) : Bool :=
  (match p.cveIds with | some ids => !ids.isEmpty | none => false) ||
  (match p.minScore with | some q => decide (q ≠ 0) | none => false) ||
  (match p.maxScore with | some q => decide (q ≠ 0) | none => false) ||
  (match p.minPercentile with | some q => decide (q ≠ 0) | none => false) ||
  (match p.maxPercentile with | some q => decide (q ≠ 0) | none => false)

/-- The filtering step of `Client.get_scores_by_date` (epss.py lines
155-173) applied to the table read from the cached CSV: the filtering
pass runs only when the truthiness gate fires. -/
def applyFilters (p : ScoreFilter) (df : List ScoreRecord) : List ScoreRecord :=
  if anyFilterSet p then filterScores p df else df

/-! ## Client query layer (`epss/epss.py`, lines 63-136)

The cache and network layers below the queries are abstracted by
`snapshots : Int → List ScoreRecord`, the table that reading the cached
CSV for a given day yields (the download path writes exactly the
upstream snapshot, so after `download_scores_by_date_range` this is also
the upstream content). -/

/-- `Client.iter_scores_grouped_by_date` (epss.py lines 89-136): first
`download_scores_by_date_range` (whose `parse_date_range` call validates
the range), then one pass over the dates through a thread pool yielding
each date whose filtered table is non empty, then an identical
sequential second pass, so every such pair is yielded twice.  The pool
completion order is modelled as submission order; the multiset of
yielded pairs is the same under every schedule. -/
def iterScoresGroupedByDate (snapshots : Int → List ScoreRecord) (p : ScoreFilter)
    (gmin gmax : Int) (minD maxD : Option Int) :
    Except PyError (List (Int × List ScoreRecord)) :=
  match iterDates gmin gmax minD maxD with
  | .error e => .error e
  | .ok dates =>
    .ok (dates.filterMap (fun d =>
        if (applyFilters p (snapshots d)).isEmpty then none
        else some (d, applyFilters p (snapshots d))) ++
      dates.filterMap (fun d =>
        if (applyFilters p (snapshots d)).isEmpty then none
        else some (d, applyFilters p (snapshots d))))

/-- `Client.get_scores_by_date_range` (epss.py lines 63-87): collects
the tables yielded by `iter_scores_grouped_by_date` and concatenates
them with `pd.concat`, which raises ValueError when the list is empty. -/
def getScoresByDateRange (snapshots : Int → List ScoreRecord) (p : ScoreFilter)
    (gmin gmax : Int) (minD maxD : Option Int) :
    Except PyError (List ScoreRecord) :=
  match iterScoresGroupedByDate snapshots p gmin gmax minD maxD with
  | .error e => .error e
  | .ok pairs =>
    if (pairs.map Prod.snd).isEmpty then .error .emptyConcat
    else .ok (pairs.map Prod.snd).flatten

/-! ## Cache layer (`epss/epss.py`, lines 150-153 and 206-215)

The canonical path for a day is injective in the day, so the filesystem
is modelled as a map from day number to the size of the file at that
path (`none` when the path does not exist), together with a counter of
network fetches performed so far. -/

/-- Filesystem and fetch counter state of the cache model. -/
structure CacheState where
  files : Int → Option Nat
  fetches : Nat

/-- `os.path.exists(path) and os.path.getsize(path) > 0` for the
canonical path of day `d`. -/
def existsNonEmpty (files : Int → Option Nat) (d : Int) : Bool :=
  match files d with
  | some sz => decide (0 < sz)
  | none => false

/-- `Client.download_scores_by_date` (epss.py lines 206-215): when no
non empty file exists at the canonical path, fetch once and write a file
of size `writeSize d` there; otherwise do nothing.  `writeSize` is the
size the module level `download_scores_by_date` write produces for that
day. -/
def ensureCached (writeSize : Int → Nat) (st : CacheState) (d : Int) : CacheState :=
  if existsNonEmpty st.files d then st
  else
    { files := fun x => if x = d then some (writeSize d) else st.files x,
      fetches := st.fetches + 1 }

/-- The cache check inside `Client.get_scores_by_date` (epss.py lines
150-153): a fetch happens only when the canonical path does not exist at
all. -/
def getScoresCacheStep (writeSize : Int → Nat) (st : CacheState) (d : Int) : CacheState :=
  match st.files d with
  | some _ => st
  | none =>
    { files := fun x => if x = d then some (writeSize d) else st.files x,
      fetches := st.fetches + 1 }

/-- Stub per-date snapshots for the three day range 1..3 of the range
query scenario: day 2 has no records, days 1 and 3 have one record
each. -/
def stubSnapshots : Int → List ScoreRecord := fun d =>
  if d = 1 then [⟨"CVE-2023-0001", 1, 1, 1⟩]
  else if d = 3 then [⟨"CVE-2023-0003", 1, 1, 3⟩]
  else []

/-! ## Helper lemmas -/

theorem asciiLower_eq_wild (c w : Char) (hw : w = '*' ∨ w = '?' ∨ w = '[') :
    asciiLower c = w ↔ c = w := by
  rcases hw with h | h | h <;> subst h <;>
    (unfold asciiLower; split <;> simp_all)

theorem scanClose_snd_lt (l : List Char) (a b : List Char) (h : scanClose l = some (a, b)) :
    b.length < l.length := by
  induction l generalizing a b with
  | nil => simp [scanClose] at h
  | cons c rest ih =>
    rw [scanClose] at h
    split at h
    · injection h with h2
      rw [Prod.mk.injEq] at h2
      obtain ⟨_, h3⟩ := h2
      subst h3
      simp
    · cases hres : scanClose rest with
      | none => rw [hres] at h; simp at h
      | some q =>
        rw [hres] at h
        simp at h
        have := ih q.1 q.2 (by rw [hres])
        rw [← h.2]
        simp
        omega

theorem splitBracket_snd_le (ps : List Char) (pr : List Char × List Char)
    (h : splitBracket ps = some pr) : pr.2.length ≤ ps.length := by
  unfold splitBracket at h
  split at h
  · cases hres : scanClose _ with
    | none => rw [hres] at h; simp at h
    | some q =>
      rw [hres] at h
      simp at h
      have := scanClose_snd_lt _ q.1 q.2 (by rw [hres])
      rw [← h]
      simp
      omega
  · cases hres : scanClose _ with
    | none => rw [hres] at h; simp at h
    | some q =>
      rw [hres] at h
      simp at h
      have := scanClose_snd_lt _ q.1 q.2 (by rw [hres])
      rw [← h]
      simp
      omega
  · cases hres : scanClose _ with
    | none => rw [hres] at h; simp at h
    | some q =>
      rw [hres] at h
      simp at h
      have := scanClose_snd_lt _ q.1 q.2 (by rw [hres])
      rw [← h]
      simp
      omega
  · have := scanClose_snd_lt _ pr.1 pr.2 (by rw [h])
    omega

theorem bracketHead_snd_le (a : Char) (ps : List Char) :
    (bracketHead a ps).2.length ≤ ps.length := by
  unfold bracketHead
  cases hsb : splitBracket ps with
  | none => simp
  | some pr => simpa using splitBracket_snd_le ps pr hsb

theorem globMatchF_eq_of_lt (f1 : Nat) (p s : List Char) (f2 : Nat)
    (h1 : p.length + s.length < f1) (h2 : p.length + s.length < f2) :
    globMatchF f1 p s = globMatchF f2 p s := by
  induction f1 generalizing f2 p s with
  | zero => omega
  | succ g1 ih =>
    cases f2 with
    | zero => omega
    | succ g2 =>
      cases p with
      | nil => rfl
      | cons c ps =>
        simp only [List.length_cons] at h1 h2
        cases s with
        | nil =>
          rw [globMatchF, globMatchF]
          by_cases hc : c = '*'
          · rw [if_pos hc, if_pos hc, ih ps [] g2 (by simp; omega) (by simp; omega)]
          · rw [if_neg hc, if_neg hc]
        | cons a s2 =>
          rw [globMatchF, globMatchF]
          simp only [List.length_cons] at h1 h2
          by_cases hc : c = '*'
          · rw [if_pos hc, if_pos hc,
              ih ps (a :: s2) g2 (by simp; omega) (by simp; omega),
              ih (c :: ps) s2 g2 (by simp; omega) (by simp; omega)]
          · rw [if_neg hc, if_neg hc]
            by_cases hq : c = '?'
            · rw [if_pos hq, if_pos hq, ih ps s2 g2 (by first | omega | (simp only [List.length_cons, List.length_nil]; omega)) (by first | omega | (simp only [List.length_cons, List.length_nil]; omega))]
            · rw [if_neg hq, if_neg hq]
              by_cases hb : c = '['
              · have hle := bracketHead_snd_le a ps
                rw [if_pos hb, if_pos hb,
                  ih (bracketHead a ps).2 s2 g2 (by first | omega | (simp only [List.length_cons, List.length_nil]; omega)) (by first | omega | (simp only [List.length_cons, List.length_nil]; omega))]
              · rw [if_neg hb, if_neg hb, ih ps s2 g2 (by first | omega | (simp only [List.length_cons, List.length_nil]; omega)) (by first | omega | (simp only [List.length_cons, List.length_nil]; omega))]

theorem globMatch_nil_pattern (s : List Char) : globMatch [] s = s.isEmpty := rfl

theorem globMatch_cons_nil (c : Char) (ps : List Char) :
    globMatch (c :: ps) [] = (if c = '*' then globMatch ps [] else false) := by
  unfold globMatch
  rw [globMatchF]
  by_cases hc : c = '*'
  · rw [if_pos hc, if_pos hc,
      globMatchF_eq_of_lt ((c :: ps).length + List.length []) ps []
        (ps.length + List.length [] + 1)
        (by first | omega | (simp only [List.length_cons, List.length_nil]; omega))
        (by first | omega | (simp only [List.length_cons, List.length_nil]; omega))]
  · rw [if_neg hc, if_neg hc]

theorem globMatch_cons_cons (c : Char) (ps : List Char) (a : Char) (s2 : List Char) :
    globMatch (c :: ps) (a :: s2) =
      (if c = '*' then globMatch ps (a :: s2) || globMatch (c :: ps) s2
       else if c = '?' then globMatch ps s2
       else if c = '[' then (bracketHead a ps).1 && globMatch (bracketHead a ps).2 s2
       else (a == c) && globMatch ps s2) := by
  unfold globMatch
  rw [globMatchF]
  by_cases hc : c = '*'
  · rw [if_pos hc, if_pos hc,
      globMatchF_eq_of_lt ((c :: ps).length + (a :: s2).length) ps (a :: s2)
        (ps.length + (a :: s2).length + 1)
        (by first | omega | (simp only [List.length_cons, List.length_nil]; omega)) (by first | omega | (simp only [List.length_cons, List.length_nil]; omega)),
      globMatchF_eq_of_lt ((c :: ps).length + (a :: s2).length) (c :: ps) s2
        ((c :: ps).length + s2.length + 1)
        (by first | omega | (simp only [List.length_cons, List.length_nil]; omega)) (by first | omega | (simp only [List.length_cons, List.length_nil]; omega))]
  · rw [if_neg hc, if_neg hc]
    by_cases hq : c = '?'
    · rw [if_pos hq, if_pos hq,
        globMatchF_eq_of_lt ((c :: ps).length + (a :: s2).length) ps s2
          (ps.length + s2.length + 1)
          (by first | omega | (simp only [List.length_cons, List.length_nil]; omega)) (by first | omega | (simp only [List.length_cons, List.length_nil]; omega))]
    · rw [if_neg hq, if_neg hq]
      by_cases hb : c = '['
      · have hle := bracketHead_snd_le a ps
        rw [if_pos hb, if_pos hb,
          globMatchF_eq_of_lt ((c :: ps).length + (a :: s2).length) (bracketHead a ps).2 s2
            ((bracketHead a ps).2.length + s2.length + 1)
            (by first | omega | (simp only [List.length_cons, List.length_nil]; omega))
            (by first | omega | (simp only [List.length_cons, List.length_nil]; omega))]
      · rw [if_neg hb, if_neg hb,
          globMatchF_eq_of_lt ((c :: ps).length + (a :: s2).length) ps s2
            (ps.length + s2.length + 1)
            (by first | omega | (simp only [List.length_cons, List.length_nil]; omega)) (by first | omega | (simp only [List.length_cons, List.length_nil]; omega))]

theorem globMatch_no_wildcard (p : List Char)
    (hp : ∀ c ∈ p, c ≠ '*' ∧ c ≠ '?' ∧ c ≠ '[') (s : List Char) :
    (globMatch p s = true ↔ p = s) := by
  induction p generalizing s with
  | nil => cases s <;> simp [globMatch_nil_pattern]
  | cons c ps ih =>
    obtain ⟨h1, h2, h3⟩ := hp c (List.mem_cons_self c ps)
    have ih2 := ih (fun d hd => hp d (List.mem_cons_of_mem c hd))
    cases s with
    | nil =>
      rw [globMatch_cons_nil, if_neg h1]
      simp
    | cons a as =>
      rw [globMatch_cons_cons, if_neg h1, if_neg h2, if_neg h3]
      simp only [Bool.and_eq_true, beq_iff_eq, ih2, List.cons.injEq]
      exact ⟨fun x => ⟨x.1.symm, x.2⟩, fun x => ⟨x.1.symm, x.2⟩⟩

/-! ## Claim theorems: pattern matching -/

/-- C8: in the default case insensitive mode `string_matches_pattern` is
glob matching of the lowercased string against the lowercased pattern; a
pattern without wildcard characters matches exactly the strings equal to
it up to case folding; and the three concrete examples from the
specification hold. -/
theorem stringMatchesPattern_glob_semantics :
    (∀ s p : String,
      stringMatchesPattern s p false = globMatch (strLower p).data (strLower s).data) ∧
    (∀ s p : String, (∀ c ∈ p.data, c ≠ '*' ∧ c ≠ '?' ∧ c ≠ '[') →
      (stringMatchesPattern s p false = true ↔ strLower s = strLower p)) ∧
    stringMatchesAnyPattern "CVE-2023-0001" ["cve-2023-*", "CVE-1999-*"] false = true ∧
    stringMatchesAnyPattern "CVE-2023-0001" ["CVE-1999-*"] false = false ∧
    stringMatchesPattern "CVE-2023-0001" "cve-2023-0001" false = true := by
  refine ⟨fun s p => rfl, ?_, by decide, by decide, by decide⟩
  intro s p hp
  have hp2 : ∀ c ∈ (strLower p).data, c ≠ '*' ∧ c ≠ '?' ∧ c ≠ '[' := by
    intro c hc
    obtain ⟨d, hd, rfl⟩ := List.mem_map.1 hc
    obtain ⟨k1, k2, k3⟩ := hp d hd
    exact ⟨fun h => k1 ((asciiLower_eq_wild d _ (Or.inl rfl)).mp h),
           fun h => k2 ((asciiLower_eq_wild d _ (Or.inr (Or.inl rfl))).mp h),
           fun h => k3 ((asciiLower_eq_wild d _ (Or.inr (Or.inr rfl))).mp h)⟩
  have hgm := globMatch_no_wildcard (strLower p).data hp2 (strLower s).data
  constructor
  · intro h
    exact (String.ext (hgm.mp h)).symm
  · intro h
    exact hgm.mpr (congrArg String.data h.symm)

/-- C10: `string_matches_any_pattern` with an empty pattern collection is
false, and in either case sensitivity mode it holds exactly when some
pattern in the collection matches under `string_matches_pattern` with the
same mode. -/
theorem stringMatchesAnyPattern_exists_iff :
    (∀ (s : String) (cs : Bool), stringMatchesAnyPattern s [] cs = false) ∧
    (∀ (s : String) (ps : List String) (cs : Bool),
      stringMatchesAnyPattern s ps cs = true ↔
        ∃ p ∈ ps, stringMatchesPattern s p cs = true) := by
  constructor
  · intro s cs
    cases cs <;> rfl
  · intro s ps cs
    cases cs <;>
      simp [stringMatchesAnyPattern, stringMatchesPattern, List.any_map,
        List.any_eq_true, Function.comp]


theorem digitVal_natDigitChar (c : Char) (n : Nat) (h : digitVal c = some n) :
    natDigitChar n = c ∧ n < 10 := by
  unfold digitVal digitTable at h
  simp only [List.lookup] at h
  repeat' split at h
  all_goals simp_all
  all_goals (subst h; exact ⟨by decide, by decide⟩)

theorem digitVal_natDigitChar_inv (n : Nat) (h : n < 10) :
    digitVal (natDigitChar n) = some n := by
  interval_cases n <;> rfl

theorem pad2_digit2 (a b : Char) (n : Nat) (h : digit2 a b = some n) :
    pad2 n = [a, b] ∧ n < 100 := by
  unfold digit2 at h
  cases hva : digitVal a with
  | none => rw [hva] at h; simp at h
  | some x =>
    cases hvb : digitVal b with
    | none => rw [hva, hvb] at h; simp at h
    | some y =>
      rw [hva, hvb] at h
      injection h with h
      obtain ⟨ha, hx⟩ := digitVal_natDigitChar a x hva
      obtain ⟨hb, hy⟩ := digitVal_natDigitChar b y hvb
      subst h
      unfold pad2
      have e1 : (10 * x + y) / 10 % 10 = x := by omega
      have e2 : (10 * x + y) % 10 = y := by omega
      rw [e1, e2, ha, hb]
      exact ⟨rfl, by omega⟩

theorem pad4_digit4 (a b c d : Char) (n : Nat) (h : digit4 a b c d = some n) :
    pad4 n = [a, b, c, d] ∧ n < 10000 := by
  unfold digit4 at h
  cases hab : digit2 a b with
  | none => rw [hab] at h; simp at h
  | some x =>
    cases hcd : digit2 c d with
    | none => rw [hab, hcd] at h; simp at h
    | some y =>
      rw [hab, hcd] at h
      injection h with h
      obtain ⟨hpab, hx⟩ := pad2_digit2 a b x hab
      obtain ⟨hpcd, hy⟩ := pad2_digit2 c d y hcd
      subst h
      unfold pad2 at hpab hpcd
      injection hpab with hab1 hpab
      injection hpab with hab2 _
      injection hpcd with hcd1 hpcd
      injection hpcd with hcd2 _
      unfold pad4
      have e1 : (100 * x + y) / 1000 % 10 = x / 10 % 10 := by omega
      have e2 : (100 * x + y) / 100 % 10 = x % 10 := by omega
      have e3 : (100 * x + y) / 10 % 10 = y / 10 % 10 := by omega
      have e4 : (100 * x + y) % 10 = y % 10 := by omega
      rw [e1, e2, e3, e4, hab1, hab2, hcd1, hcd2]
      exact ⟨rfl, by omega⟩

theorem isoformat_fromIsoformat (s : String) (d : CalDate) (h : fromIsoformat s = some d) :
    isoformat d = s := by
  unfold fromIsoformat at h
  split at h
  case h_2 => simp at h
  case h_1 a b c dd h1 e f h2 g i heq =>
    split at h
    case isFalse => simp at h
    case isTrue hc =>
      simp only [Bool.and_eq_true, decide_eq_true_eq] at hc
      split at h
      case h_2 => simp at h
      case h_1 y mo dy h4 h2a h2b =>
        split at h
        case isFalse => simp at h
        case isTrue hv =>
          injection h with h
          subst h
          apply String.ext
          rw [heq]
          show pad4 y ++ '-' :: (pad2 mo ++ '-' :: pad2 dy) =
            [a, b, c, dd, h1, e, f, h2, g, i]
          rw [(pad4_digit4 a b c dd y h4).1, (pad2_digit2 e f mo h2a).1,
            (pad2_digit2 g i dy h2b).1, hc.1, hc.2]
          rfl

theorem daysInMonth_le_31 (y m : Nat) : daysInMonth y m ≤ 31 := by
  unfold daysInMonth
  split
  · split <;> omega
  · split <;> omega

theorem fromIsoformat_isoformat (d : CalDate) (hv : validDate d = true) :
    fromIsoformat (isoformat d) = some d := by
  have hb : 1 ≤ d.year ∧ d.year ≤ 9999 ∧ d.month ≤ 12 ∧ d.day ≤ 31 := by
    unfold validDate at hv
    simp only [Bool.and_eq_true, decide_eq_true_eq] at hv
    have := daysInMonth_le_31 d.year d.month
    omega
  have h4 : digit4 (natDigitChar (d.year / 1000 % 10)) (natDigitChar (d.year / 100 % 10))
      (natDigitChar (d.year / 10 % 10)) (natDigitChar (d.year % 10)) = some d.year := by
    unfold digit4 digit2
    rw [digitVal_natDigitChar_inv _ (by omega), digitVal_natDigitChar_inv _ (by omega),
      digitVal_natDigitChar_inv _ (by omega), digitVal_natDigitChar_inv _ (by omega)]
    simp only
    congr 1
    omega
  have h2a : digit2 (natDigitChar (d.month / 10 % 10)) (natDigitChar (d.month % 10)) =
      some d.month := by
    unfold digit2
    rw [digitVal_natDigitChar_inv _ (by omega), digitVal_natDigitChar_inv _ (by omega)]
    simp only
    congr 1
    omega
  have h2b : digit2 (natDigitChar (d.day / 10 % 10)) (natDigitChar (d.day % 10)) =
      some d.day := by
    unfold digit2
    rw [digitVal_natDigitChar_inv _ (by omega), digitVal_natDigitChar_inv _ (by omega)]
    simp only
    congr 1
    omega
  unfold fromIsoformat isoformat pad4 pad2
  simp only [List.cons_append, List.nil_append]
  rw [h4, h2a, h2b]
  norm_num
  intro hfalse
  have hfd : validDate d = false := hfalse
  rw [hv] at hfd
  cases hfd

/-- Witness for C8 at a concrete input: the wildcard free pattern
"cve-2023-0001" matches exactly the strings equal to it up to case
folding. -/
theorem stringMatchesPattern_glob_semantics_witness :
    stringMatchesPattern "CVE-2023-0001" "cve-2023-0001" false = true ↔
      strLower "CVE-2023-0001" = strLower "cve-2023-0001" :=
  stringMatchesPattern_glob_semantics.2.1 "CVE-2023-0001" "cve-2023-0001" (by decide)

/-! ## Claim theorems: dates -/

/-- C7: every valid calendar date renders to an ISO string that
`parse_date` accepts and returns unchanged; every string `parse_date`
accepts is the canonical rendering of its result (so
`parse_date(s).isoformat() == s`); `parse_date` raises on unparseable
strings and on unsupported input types. -/
theorem parseDate_iso_roundtrip :
    (∀ d : CalDate, validDate d = true → parseDate (.str (isoformat d)) = .ok d) ∧
    (∀ (s : String) (d : CalDate), parseDate (.str s) = .ok d → isoformat d = s) ∧
    (∀ s : String, fromIsoformat s = none →
      parseDate (.str s) = .error .invalidDateFormat) ∧
    parseDate .other = .error .invalidDateFormat := by
  refine ⟨?_, ?_, ?_, rfl⟩
  · intro d hv
    simp only [parseDate]
    rw [fromIsoformat_isoformat d hv]
  · intro s d h
    simp only [parseDate] at h
    cases hf : fromIsoformat s with
    | none => rw [hf] at h; simp at h
    | some d2 =>
      rw [hf] at h
      injection h with h
      subst h
      exact isoformat_fromIsoformat s d2 hf
  · intro s h
    simp only [parseDate]
    rw [h]

/-- Witness for C7 at a concrete input: 2023-01-01 round trips. -/
theorem parseDate_iso_roundtrip_witness :
    parseDate (.str (isoformat ⟨2023, 1, 1⟩)) = .ok ⟨2023, 1, 1⟩ :=
  parseDate_iso_roundtrip.1 ⟨2023, 1, 1⟩ (by decide)

/-- C5: `parse_date_range` raises `InvalidRange` exactly when the
defaulted minimum exceeds the defaulted maximum, and otherwise returns
the defaulted pair. -/
theorem parseDateRange_invalidRange_iff :
    (∀ (gmin gmax : Int) (minD maxD : Option Int),
      parseDateRange gmin gmax minD maxD = .error .invalidRange ↔
        minD.getD gmin > maxD.getD gmax) ∧
    (∀ (gmin gmax : Int) (minD maxD : Option Int),
      minD.getD gmin ≤ maxD.getD gmax →
        parseDateRange gmin gmax minD maxD = .ok (minD.getD gmin, maxD.getD gmax)) := by
  constructor
  · intro gmin gmax minD maxD
    unfold parseDateRange
    by_cases h : minD.getD gmin > maxD.getD gmax
    · simp [h]
    · simp [h]
  · intro gmin gmax minD maxD h
    unfold parseDateRange
    rw [if_neg (by omega)]

/-- Witness for C5 at concrete inputs: both defaulted bounds. -/
theorem parseDateRange_invalidRange_iff_witness :
    parseDateRange 0 10 none none = .ok (0, 10) :=
  parseDateRange_invalidRange_iff.2 0 10 none none (by decide)

theorem iterDates_some_some (gmin gmax d1 d2 : Int) (h : d1 ≤ d2) :
    iterDates gmin gmax (some d1) (some d2) =
      .ok ((List.range ((d2 - d1).toNat + 1)).map (fun (i : Nat) => d1 + (i : Int))) := by
  unfold iterDates parseDateRange
  simp only [Option.getD_some]
  rw [if_neg (by omega)]

/-- C6: over an inclusive range with d1 < d2, `iter_dates` yields exactly
(d2 - d1) + 1 dates, pairwise strictly ascending, starting at d1 and
ending at d2; the output is a pure function of the bounds. -/
theorem iterDates_ascending_count :
    ∀ (gmin gmax d1 d2 : Int), d1 < d2 →
      ∃ l : List Int,
        iterDates gmin gmax (some d1) (some d2) = .ok l ∧
        l.length = (d2 - d1).toNat + 1 ∧
        l.Pairwise (· < ·) ∧
        l.head? = some d1 ∧
        l.getLast? = some d2 := by
  intro gmin gmax d1 d2 h
  refine ⟨_, iterDates_some_some gmin gmax d1 d2 (le_of_lt h), ?_, ?_, ?_, ?_⟩
  · simp
  · refine List.Pairwise.map _ ?_ (List.pairwise_lt_range _)
    intro a b hab
    omega
  · rw [List.range_succ_eq_map]
    simp
  · rw [List.range_succ, List.map_append]
    simp only [List.map_cons, List.map_nil, List.getLast?_concat]
    congr 1
    omega

/-- Witness for C6 at concrete bounds 0 and 2. -/
theorem iterDates_ascending_count_witness :
    ∃ l : List Int,
      iterDates 0 100 (some 0) (some 2) = .ok l ∧
      l.length = ((2 : Int) - 0).toNat + 1 ∧
      l.Pairwise (· < ·) ∧
      l.head? = some 0 ∧
      l.getLast? = some 2 :=
  iterDates_ascending_count 0 100 0 2 (by decide)

/-! ## Claim theorems: cache and query layer -/

theorem ensureCached_hit (w : Int → Nat) (st : CacheState) (d : Int)
    (h : existsNonEmpty st.files d = true) : ensureCached w st d = st := by
  unfold ensureCached
  rw [if_pos h]

theorem ensureCached_miss (w : Int → Nat) (st : CacheState) (d : Int)
    (h : existsNonEmpty st.files d = false) :
    ensureCached w st d =
      ⟨fun x => if x = d then some (w d) else st.files x, st.fetches + 1⟩ := by
  unfold ensureCached
  rw [if_neg (by simp [h])]

/-- C3: with a non empty file already at the canonical path,
`Client.download_scores_by_date` performs no fetch and leaves the state
unchanged, and so does the cache check of `Client.get_scores_by_date`;
and after the successful write of a cache miss, a second call performs
no further fetch, so two consecutive calls from a miss perform exactly
one fetch in total. -/
theorem ensureCached_cache_hit_no_refetch :
    (∀ (w : Int → Nat) (st : CacheState) (d : Int),
      existsNonEmpty st.files d = true → ensureCached w st d = st) ∧
    (∀ (w : Int → Nat) (st : CacheState) (d : Int),
      existsNonEmpty st.files d = true → getScoresCacheStep w st d = st) ∧
    (∀ (w : Int → Nat) (st : CacheState) (d : Int),
      0 < w d →
        (ensureCached w (ensureCached w st d) d).fetches =
          st.fetches + (if existsNonEmpty st.files d then 0 else 1)) := by
  refine ⟨ensureCached_hit, ?_, ?_⟩
  · intro w st d h
    unfold getScoresCacheStep
    unfold existsNonEmpty at h
    cases hf : st.files d with
    | none => rw [hf] at h; simp at h
    | some sz => rfl
  · intro w st d hw
    by_cases h : existsNonEmpty st.files d = true
    · rw [ensureCached_hit w st d h, ensureCached_hit w st d h, if_pos h]
      omega
    · have h0 : existsNonEmpty st.files d = false := by
        cases hb : existsNonEmpty st.files d
        · rfl
        · exact absurd hb h
      rw [ensureCached_miss w st d h0]
      have h2 : existsNonEmpty
          (⟨fun x => if x = d then some (w d) else st.files x,
            st.fetches + 1⟩ : CacheState).files d = true := by
        unfold existsNonEmpty
        simp [hw]
      rw [ensureCached_hit _ _ _ h2, if_neg h]

/-- Witness for C3 at a concrete input: from an empty cache, two
consecutive calls fetch exactly once. -/
theorem ensureCached_cache_hit_no_refetch_witness :
    (ensureCached (fun _ => 5) (ensureCached (fun _ => 5) ⟨fun _ => none, 0⟩ 0) 0).fetches =
      (⟨fun _ => none, 0⟩ : CacheState).fetches +
        (if existsNonEmpty (⟨fun _ => none, 0⟩ : CacheState).files 0 then 0 else 1) :=
  ensureCached_cache_hit_no_refetch.2.2 (fun _ => 5) ⟨fun _ => none, 0⟩ 0 (by decide)

/-- C4 fails on the code at a concrete input: with `max_score = 0.0` and
every other parameter at its default, the truthiness gate of
`get_scores_by_date` treats the filter set as empty and skips filtering,
returning a record with score 1 that unconditionally applying
`filter_scores` would drop — the shortcut is not a semantic no-op. -/
theorem applyFilters_gate_zero_counterexample :
    applyFilters ⟨none, none, some 0, none, none⟩ [⟨"CVE-2023-0001", 1, 1, 0⟩] =
      [⟨"CVE-2023-0001", 1, 1, 0⟩] ∧
    filterScores ⟨none, none, some 0, none, none⟩ [⟨"CVE-2023-0001", 1, 1, 0⟩] = [] ∧
    ([⟨"CVE-2023-0001", 1, 1, 0⟩] : List ScoreRecord) ≠ [] := by
  refine ⟨by decide, by decide, by decide⟩

/-- C4 amended: whenever no numeric filter parameter is set to the
falsy float 0.0, the table returned by `get_scores_by_date` equals
unconditionally applying `filter_scores`: the skip-when-no-filter-is-set
shortcut is semantically a no-op outside the zero-valued corner. -/
theorem applyFilters_eq_filterScores_of_nonzero :
    ∀ (p : ScoreFilter) (df : List ScoreRecord),
      (∀ q, p.minScore = some q → q ≠ 0) →
      (∀ q, p.maxScore = some q → q ≠ 0) →
      (∀ q, p.minPercentile = some q → q ≠ 0) →
      (∀ q, p.maxPercentile = some q → q ≠ 0) →
      applyFilters p df = filterScores p df := by
  intro p df h1 h2 h3 h4
  obtain ⟨cids, ms, xs, mp, xp⟩ := p
  unfold applyFilters
  by_cases hg : anyFilterSet ⟨cids, ms, xs, mp, xp⟩ = true
  · rw [if_pos hg]
  · rw [if_neg hg]
    cases ms with
    | some q =>
      exact absurd (by simp [anyFilterSet, h1 q rfl]) hg
    | none =>
      cases xs with
      | some q =>
        exact absurd (by simp [anyFilterSet, h2 q rfl]) hg
      | none =>
        cases mp with
        | some q =>
          exact absurd (by simp [anyFilterSet, h3 q rfl]) hg
        | none =>
          cases xp with
          | some q =>
            exact absurd (by simp [anyFilterSet, h4 q rfl]) hg
          | none =>
            cases cids with
            | none => simp [filterScores]
            | some ids =>
              cases hie : ids.isEmpty with
              | false => exact absurd (by simp [anyFilterSet, hie]) hg
              | true => simp [filterScores, hie]

/-- Witness for C4 amended at a concrete input: a half score bound is
truthy, so both paths filter. -/
theorem applyFilters_eq_filterScores_of_nonzero_witness :
    applyFilters ⟨none, none, some (1/2), none, none⟩ [⟨"CVE-2023-0001", 1, 1, 0⟩] =
      filterScores ⟨none, none, some (1/2), none, none⟩ [⟨"CVE-2023-0001", 1, 1, 0⟩] :=
  applyFilters_eq_filterScores_of_nonzero ⟨none, none, some (1/2), none, none⟩
    [⟨"CVE-2023-0001", 1, 1, 0⟩]
    (fun q hq => by cases hq)
    (fun q hq => by injection hq with hq; subst hq; norm_num)
    (fun q hq => by cases hq)
    (fun q hq => by cases hq)

theorem probeMinDate_exact (avail : Int → Bool) (m maxD : Int) (hm : m ≤ maxD)
    (hav : ∀ d : Int, avail d = true ↔ (m ≤ d ∧ d ≤ maxD)) :
    ∀ (fuel : Nat) (d : Int), m - 1 ≤ d → d ≤ maxD →
      (d - (m - 1)).toNat < fuel →
      probeMinDate avail fuel d = some (m - 1) := by
  intro fuel
  induction fuel with
  | zero => omega
  | succ g ih =>
    intro d hd1 hd2 hfuel
    rw [probeMinDate]
    by_cases hd : d = m - 1
    · subst hd
      have : avail (m - 1) = false := by
        cases hb : avail (m - 1)
        · rfl
        · have := (hav (m - 1)).mp hb
          omega
      rw [this]
      simp
    · have hat : avail d = true := (hav d).mpr (by omega)
      rw [hat]
      simp only [Bool.true_eq_false, if_neg]
      exact ih (d - 1) (by omega) (by omega) (by omega)

/-- C2 fails on the code: with HEAD answering 200 exactly on day numbers
5 through 7 (earliest available date m = 5, max date 7), the descending
probe of `get_min_date(check=True)` returns 4.  That is the first date
with no available snapshot, one day before the last date that was
available, and it contradicts both the claim and the docstring of
`get_min_date` (the returned date is not available at all).  The general
shape is proved first, then evaluated at the failing input. -/
theorem getMinDate_check_returns_unavailable_date :
    (∀ (minConst m maxD : Int) (avail : Int → Bool) (fuel : Nat),
      m ≤ maxD → (∀ d : Int, avail d = true ↔ (m ≤ d ∧ d ≤ maxD)) →
      (maxD - (m - 1)).toNat < fuel →
      getMinDate minConst avail maxD true fuel = some (m - 1)) ∧
    getMinDate 0 (fun d => decide (5 ≤ d ∧ d ≤ 7)) 7 true 10 = some 4 ∧
    (fun d : Int => decide (5 ≤ d ∧ d ≤ 7)) 4 = false := by
  refine ⟨?_, by decide, by decide⟩
  intro minConst m maxD avail fuel hm hav hfuel
  unfold getMinDate
  simp only [Bool.true_eq_false, if_neg]
  exact probeMinDate_exact avail m maxD hm hav fuel maxD (by omega) (by omega) hfuel

/-- Witness for C2 applying the general probe shape at the failing
input: earliest available day 5, maximum day 7, returns day 4. -/
theorem getMinDate_check_returns_unavailable_date_witness :
    getMinDate 0 (fun d => decide (5 ≤ d ∧ d ≤ 7)) 7 true 10 = some (5 - 1) :=
  getMinDate_check_returns_unavailable_date.1 0 5 7
    (fun d => decide (5 ≤ d ∧ d ≤ 7)) 10 (by decide) (fun d => by simp) (by decide)

/-- C1 fails on the code: over the range of day numbers 1..3 with no
filters, where the table of day 2 is empty after filtering,
`iter_scores_grouped_by_date` yields four (date, table) pairs — each of
the two non empty dates is yielded twice, once by the thread pool pass
and once by the repeated sequential pass — where the claim requires
exactly one pair per non empty date (two in total). -/
theorem iterScoresGroupedByDate_double_yield :
    iterScoresGroupedByDate stubSnapshots noFilter 0 100 (some 1) (some 3) =
      .ok [(1, [⟨"CVE-2023-0001", 1, 1, 1⟩]), (3, [⟨"CVE-2023-0003", 1, 1, 3⟩]),
           (1, [⟨"CVE-2023-0001", 1, 1, 1⟩]), (3, [⟨"CVE-2023-0003", 1, 1, 3⟩])] ∧
    ([(1 : Int), 3, 1, 3].length = 4 ∧ [(1 : Int), 3, 1, 3].length ≠ 2) := by
  refine ⟨by rfl, by decide, by decide⟩

theorem mem_rangeDates (d1 d2 x : Int) (h : d1 ≤ d2) :
    (x ∈ (List.range ((d2 - d1).toNat + 1)).map (fun (i : Nat) => d1 + (i : Int))) ↔
      (d1 ≤ x ∧ x ≤ d2) := by
  simp only [List.mem_map, List.mem_range]
  constructor
  · rintro ⟨i, hi, rfl⟩
    omega
  · intro hx
    exact ⟨(x - d1).toNat, by omega, by omega⟩

/-- C9: over a valid range, when the filtered table of every date in the
range is empty, `get_scores_by_date_range` raises (the `pd.concat` of
zero per-date tables fails) rather than returning an empty table; when
some date in the range filters to a non empty table, it returns a
table. -/
theorem getScoresByDateRange_empty_concat_raises :
    ∀ (snaps : Int → List ScoreRecord) (p : ScoreFilter) (gmin gmax d1 d2 : Int),
      d1 ≤ d2 →
      ((∀ d : Int, d1 ≤ d → d ≤ d2 → applyFilters p (snaps d) = []) →
        getScoresByDateRange snaps p gmin gmax (some d1) (some d2) =
          .error .emptyConcat) ∧
      ((∃ d : Int, d1 ≤ d ∧ d ≤ d2 ∧ applyFilters p (snaps d) ≠ []) →
        ∃ t, getScoresByDateRange snaps p gmin gmax (some d1) (some d2) = .ok t) := by
  intro snaps p gmin gmax d1 d2 hd
  have hi := iterDates_some_some gmin gmax d1 d2 hd
  have hred : getScoresByDateRange snaps p gmin gmax (some d1) (some d2) =
      (let fm := ((List.range ((d2 - d1).toNat + 1)).map
          (fun (i : Nat) => d1 + (i : Int))).filterMap
        (fun d => if (applyFilters p (snaps d)).isEmpty then none
          else some (d, applyFilters p (snaps d)));
      if ((fm ++ fm).map Prod.snd).isEmpty then .error .emptyConcat
      else .ok ((fm ++ fm).map Prod.snd).flatten) := by
    unfold getScoresByDateRange iterScoresGroupedByDate
    rw [hi]
  constructor
  · intro hall
    rw [hred]
    have hfm : ((List.range ((d2 - d1).toNat + 1)).map
        (fun (i : Nat) => d1 + (i : Int))).filterMap
        (fun d => if (applyFilters p (snaps d)).isEmpty then none
          else some (d, applyFilters p (snaps d))) = [] := by
      rw [List.filterMap_eq_nil_iff]
      intro a ha
      rw [mem_rangeDates d1 d2 a hd] at ha
      simp [hall a ha.1 ha.2]
    simp only [hfm]
    rfl
  · rintro ⟨d, hd1, hd2, hne⟩
    rw [hred]
    have hmem : (d, applyFilters p (snaps d)) ∈
        ((List.range ((d2 - d1).toNat + 1)).map
          (fun (i : Nat) => d1 + (i : Int))).filterMap
        (fun x => if (applyFilters p (snaps x)).isEmpty then none
          else some (x, applyFilters p (snaps x))) := by
      refine List.mem_filterMap.mpr ⟨d, (mem_rangeDates d1 d2 d hd).mpr ⟨hd1, hd2⟩, ?_⟩
      rw [if_neg (by simp [hne])]
    have hfne := List.ne_nil_of_mem hmem
    obtain ⟨x, xs, hfm0⟩ : ∃ x xs, ((List.range ((d2 - d1).toNat + 1)).map
        (fun (i : Nat) => d1 + (i : Int))).filterMap
        (fun y => if (applyFilters p (snaps y)).isEmpty then none
          else some (y, applyFilters p (snaps y))) = x :: xs := by
      cases hfm1 : ((List.range ((d2 - d1).toNat + 1)).map
          (fun (i : Nat) => d1 + (i : Int))).filterMap
          (fun y => if (applyFilters p (snaps y)).isEmpty then none
            else some (y, applyFilters p (snaps y))) with
      | nil => exact absurd hfm1 hfne
      | cons x xs => exact ⟨x, xs, rfl⟩
    simp only []
    rw [hfm0, if_neg (by simp)]
    exact ⟨_, rfl⟩

/-- Witness for C9 at a concrete input: with every snapshot empty over
the two day range 1..2, the range query raises on the empty
concatenation. -/
theorem getScoresByDateRange_empty_concat_raises_witness :
    getScoresByDateRange (fun _ => []) noFilter 0 100 (some 1) (some 2) =
      .error .emptyConcat :=
  (getScoresByDateRange_empty_concat_raises (fun _ => []) noFilter 0 100 1 2
    (by decide)).1 (fun d h1 h2 => rfl)
